import Mathlib

/-!
Verification of the auction subsystem of a payment-link marketplace.

The definitions below are a shallow embedding of the auction core:
the bid validator, the lazy-close state machine (`finalizeAuction`),
the bid-intake endpoint (`placeBid`), the summary endpoint
(`summaryResponse`, in particular its email masking `maskEmail`),
and the checkout-session handler (`createCheckoutSession`).

Times are epoch milliseconds as `Nat`.  Fallible external calls
(the document-store update/set, the product fetch, the email send)
are passed in as `Except`/`Option` parameters of a `FinalizeEnv`,
so that every control path of the source, including its partial-failure
paths, is a value the theorems can inspect.
-/

namespace InstaPay

/-- JS `v || d` on an integer already known to be a number:
`0` is falsy and falls through to the default. -/
def jsOrNat (v d : Nat) : Nat :=
  if v = 0 then d else v

/-- JS `a || b` on two nullable object references: any object is truthy,
`null`/`undefined` falls through. -/
def jsOrOpt {α : Type} (a b : Option α) : Option α :=
  match a with
  | some x => some x
  | none => b

/-- JS `String(email).toLowerCase()`, modelled character-wise. -/
def jsToLowerCase (s : String) : String :=
  String.mk (s.data.map Char.toLower)

/-- JS truthiness of a nullable string: `null`, `undefined` and `""` are falsy. -/
def strTruthy : Option String → Bool
  | none => false
  | some s => s != ""

/-- Snapshot of deliverable-file metadata (`digitalDownload`). -/
structure DigitalDownload where
  storagePath : Option String
  contentUrl : Option String
deriving DecidableEq, Repr

/-- `Boolean(dd && (dd.storagePath || dd.contentUrl))`. -/
def hasDigitalOf : Option DigitalDownload → Bool
  | none => false
  | some d => strTruthy d.storagePath || strTruthy d.contentUrl

/-- Stored auction status strings. -/
inductive AuctionStatus where
  | active
  | finalized
deriving DecidableEq, Repr

/-- The `auction.winner` record persisted at finalization. -/
structure Winner where
  email : String
  bidId : String
  amount_cents : Nat
deriving DecidableEq, Repr

/-- The `auction` object embedded in a link document. -/
structure Auction where
  enabled : Bool
  endsAt : Nat
  startingPrice_cents : Nat
  minIncrement_cents : Nat
  status : AuctionStatus
  winner : Option Winner
deriving DecidableEq, Repr

/-- A bid document in a link's `bids` sub-collection. -/
structure Bid where
  bidId : String
  email : String
  amount_cents : Nat
  createdAt : Nat
deriving DecidableEq, Repr

/-- A link document. `active` is absent (`none`) until finalization writes it. -/
structure Link where
  linkId : String
  productId : String
  sellerId : String
  createdAt : Nat
  expiresAt : Option Nat
  digitalDownload : Option DigitalDownload
  hasDigital : Bool
  active : Option Bool
  auction : Option Auction
deriving DecidableEq, Repr

/-- The slice of a product document the auction core reads. -/
structure Product where
  title : String
  price_cents : Nat
  digitalDownload : Option DigitalDownload
deriving DecidableEq, Repr

/-- `getHighestBid`: `orderBy('amount_cents','desc').limit(1)` over the bid
collection; on ties the store order decides, modelled as first-in-list. -/
def getHighestBid : List Bid → Option Bid
  | [] => none
  | b :: bs =>
    match getHighestBid bs with
    | none => some b
    | some m => if m.amount_cents > b.amount_cents then some m else some b

/-- The bid validator of the intake handler:
`highest ? highest.amount_cents + (auction.minIncrement_cents || 100)
         : (auction.startingPrice_cents || 0)`. -/
def minRequired (a : Auction) (highest : Option Bid) : Nat :=
  match highest with
  | some h => h.amount_cents + jsOrNat a.minIncrement_cents 100
  | none => jsOrNat a.startingPrice_cents 0

/-- Results of the external calls `finalizeAuction` performs, passed in so the
pure model can follow every failure path of the source. -/
structure FinalizeEnv where
  updateResult : Except String Unit
  product : Option Product
  newLinkId : String
  setResult : Except String Unit
  emailResult : Except String Unit
deriving Repr

/-- What one `finalizeAuction` call did: the link value it returns, the
follow-up link document it created (if any), whether the winner email went
out, and the error its internal `catch` logged (if any). -/
structure FinalizeOutcome where
  link : Link
  created : Option Link
  emailed : Bool
  logged : Option String
deriving DecidableEq, Repr

/-- The follow-up (winner-only) link document minted at finalization:
fresh id, same product/seller, 48-hour expiry, digital snapshot taken from
the auction link with the product as fallback. -/
def winnerLinkDoc (link : Link) (product : Product) (newLinkId : String)
    (now : Nat) : Link :=
  { linkId := newLinkId
    productId := link.productId
    sellerId := link.sellerId
    createdAt := now
    expiresAt := some (now + 48 * 3600 * 1000)
    digitalDownload := jsOrOpt link.digitalDownload product.digitalDownload
    hasDigital := hasDigitalOf link.digitalDownload ||
      hasDigitalOf product.digitalDownload
    active := none
    auction := none }

/-- The winner branch of `finalizeAuction` — product fetch, follow-up-link
`set`, winner email — whose whole body sits inside one `try/catch` that
logs the error and swallows it.  Result: (created follow-up link, email
sent, logged error). -/
def winnerBlock (link : Link) (now : Nat) (env : FinalizeEnv) :
    Option Link × Bool × Option String :=
  match env.product with
  | none => (none, false, some "TypeError: product is undefined")
  | some product =>
    let doc := winnerLinkDoc link product env.newLinkId now
    match env.setResult with
    | Except.error e => (none, false, some e)
    | Except.ok _ =>
      match env.emailResult with
      | Except.error e => (some doc, false, some e)
      | Except.ok _ => (some doc, true, none)

/-- `finalizeAuction(link)`.  Returns `ok none` when the link has no enabled
auction (source returns `null`), `ok (some outcome)` otherwise; an `error`
only when the finalization `update` itself rejects (it sits outside the
`try`).  Failures of the winner block surface only in `logged`, never as
an `error`. -/
def finalizeAuction (link : Link) (bids : List Bid) (now : Nat)
    (env : FinalizeEnv) : Except String (Option FinalizeOutcome) :=
  match link.auction with
  | none => Except.ok none
  | some a =>
    if a.enabled = false then Except.ok none
    else if a.status = AuctionStatus.finalized then
      Except.ok (some ⟨link, none, false, none⟩)
    else if now < a.endsAt then
      Except.ok (some ⟨link, none, false, none⟩)
    else
      let winner := (getHighestBid bids).map
        (fun h => Winner.mk h.email h.bidId h.amount_cents)
      match env.updateResult with
      | Except.error e => Except.error e
      | Except.ok _ =>
        let a2 : Auction :=
          { a with status := AuctionStatus.finalized, winner := winner }
        let link2 : Link := { link with auction := some a2, active := some false }
        match winner with
        | none => Except.ok (some ⟨link2, none, false, none⟩)
        | some _ =>
          let wb := winnerBlock link now env
          Except.ok (some ⟨link2, wb.1, wb.2.1, wb.2.2⟩)

/-- Responses of `POST /api/bids`, with the payload fields each error carries. -/
inductive BidResponse where
  | ok (bid : Bid)
  | validation
  | notFound
  | auctionNotEnabled
  | auctionEnded (auction : Option Auction)
  | bidTooLow (minRequired_cents : Nat) (highest_cents : Nat)
  | internal (msg : String)
deriving DecidableEq, Repr

/-- Everything one `POST /api/bids` request did: the response, the bid
collection afterwards, the link document afterwards, and the finalization
side effects when the lazy close fired. -/
structure PlaceBidResult where
  response : BidResponse
  bids : List Bid
  link : Option Link
  createdFollowUp : Option Link
  emailed : Bool
deriving Repr

/-- The `POST /api/bids` handler: validation, lookup, enabled gate, lazy
close-and-reject once `endsAt <= now`, minimum-bid check, then append the
bid document with a lowercased email. -/
def placeBid (storeLink : Option Link) (bids : List Bid) (now : Nat)
    (email : String) (amount_cents : Nat) (newBidId : String)
    (env : FinalizeEnv) : PlaceBidResult :=
  if email = "" then ⟨BidResponse.validation, bids, storeLink, none, false⟩
  else
    match storeLink with
    | none => ⟨BidResponse.notFound, bids, none, none, false⟩
    | some link =>
      match link.auction with
      | none => ⟨BidResponse.auctionNotEnabled, bids, some link, none, false⟩
      | some a =>
        if a.enabled = false then
          ⟨BidResponse.auctionNotEnabled, bids, some link, none, false⟩
        else if a.endsAt ≤ now then
          match finalizeAuction link bids now env with
          | Except.error e => ⟨BidResponse.internal e, bids, some link, none, false⟩
          | Except.ok none =>
            ⟨BidResponse.internal "auction of null", bids, some link, none, false⟩
          | Except.ok (some o) =>
            ⟨BidResponse.auctionEnded o.link.auction, bids, some o.link,
              o.created, o.emailed⟩
        else
          let highest := getHighestBid bids
          let minReq := minRequired a highest
          if amount_cents < minReq then
            ⟨BidResponse.bidTooLow minReq
              (match highest with | some h => jsOrNat h.amount_cents 0 | none => 0),
              bids, some link, none, false⟩
          else
            let bid : Bid :=
              { bidId := newBidId
                email := jsToLowerCase email
                amount_cents := amount_cents
                createdAt := now }
            ⟨BidResponse.ok bid, bids ++ [bid], some link, none, false⟩

/-- Rightmost index `j` of the char list with `l.get? j = '@'`, `3 ≤ j` and
`j + 2 ≤ l.length`: the position at which the backtracking regex
`/(.{2}).+(@.+)/` places its `(@.+)` group (the `.+` before it is greedy, the
`.+` inside it runs to the end of the string). -/
def lastAtAux (l : List Char) : Nat → Option Nat
  | 0 => none
  | j + 1 =>
    if 3 ≤ j ∧ j + 2 ≤ l.length ∧ l.get? j = some '@' then some j
    else lastAtAux l j

/-- `email.replace(/(.{2}).+(@.+)/, '$1****$2')` (non-global replace): when
the pattern matches, the match starts at index 0 — `$1` is the first two
characters — and `$2` runs from the rightmost eligible `'@'` to the end;
when the pattern finds no match the string is returned unchanged. -/
def maskEmail (s : String) : String :=
  match lastAtAux s.data s.data.length with
  | some j => String.mk (s.data.take 2 ++ ('*' :: '*' :: '*' :: '*' :: s.data.drop j))
  | none => s

/-- The `GET /api/bids/:linkId/summary` response body, composed after the
lazy finalization step. -/
structure Summary where
  auction : Option Auction
  highest_cents : Nat
  highest_email_masked : Option String
  count : Nat
  recent : List Bid
deriving DecidableEq, Repr

/-- Summary composition: highest amount (`|| 0`), masked highest email,
bid count, and the ten most recent bids newest-first. -/
def summaryResponse (link : Link) (bids : List Bid) : Summary :=
  { auction := link.auction
    highest_cents :=
      match getHighestBid bids with
      | some h => jsOrNat h.amount_cents 0
      | none => 0
    highest_email_masked := (getHighestBid bids).map (fun h => maskEmail h.email)
    count := jsOrNat bids.length
      ((bids.insertionSort (fun x y => y.createdAt ≤ x.createdAt)).take 10).length
    recent := (bids.insertionSort (fun x y => y.createdAt ≤ x.createdAt)).take 10 }

/-- Error responses of `POST /api/create-checkout-session`. -/
inductive CheckoutError where
  | linkIdRequired
  | linkNotFound
  | linkExpired
  | productNotFound
  | auctionActive
  | noWinningBid
  | invalidPrice
deriving DecidableEq, Repr

/-- The slice of the created checkout session the auction core determines. -/
structure CheckoutSession where
  unit_amount : Nat
deriving DecidableEq, Repr

/-- The part of the checkout handler past the link-expiry gate: product
lookup, auction-active gate, then the unit amount — the product price for a
plain link, the highest stored bid for a finalized auction (`No winning
bid` when that is missing or `0`), rejected unless strictly positive. -/
def createCheckoutSessionBody (link : Link) (productLookup : Option Product)
    (bids : List Bid) : Except CheckoutError CheckoutSession :=
  match productLookup with
  | none => Except.error CheckoutError.productNotFound
  | some product =>
    match link.auction with
    | some a =>
      if a.enabled && !(a.status = AuctionStatus.finalized) then
        Except.error CheckoutError.auctionActive
      else if a.enabled && a.status = AuctionStatus.finalized then
        match getHighestBid bids with
        | none => Except.error CheckoutError.noWinningBid
        | some top =>
          if top.amount_cents = 0 then Except.error CheckoutError.noWinningBid
          else Except.ok ⟨top.amount_cents⟩
      else
        if product.price_cents = 0 then Except.error CheckoutError.invalidPrice
        else Except.ok ⟨product.price_cents⟩
    | none =>
      if product.price_cents = 0 then Except.error CheckoutError.invalidPrice
      else Except.ok ⟨product.price_cents⟩

/-- The `POST /api/create-checkout-session` handler: link-expiry gate,
then `createCheckoutSessionBody`. -/
def createCheckoutSession (storeLink : Option Link) (productLookup : Option Product)
    (bids : List Bid) (now : Nat) : Except CheckoutError CheckoutSession :=
  match storeLink with
  | none => Except.error CheckoutError.linkNotFound
  | some link =>
    match link.expiresAt with
    | some t =>
      if t ≤ now then Except.error CheckoutError.linkExpired
      else createCheckoutSessionBody link productLookup bids
    | none => createCheckoutSessionBody link productLookup bids

theorem getHighestBid_cons_ne_none (b : Bid) (bs : List Bid) :
    getHighestBid (b :: bs) ≠ none := by
  simp only [getHighestBid]
  cases getHighestBid bs with
  | none => simp
  | some m => by_cases hcmp : m.amount_cents > b.amount_cents <;> simp [hcmp]

theorem getHighestBid_none_iff (bids : List Bid) :
    getHighestBid bids = none ↔ bids = [] := by
  cases bids with
  | nil => simp [getHighestBid]
  | cons b bs =>
    constructor
    · intro h
      exact absurd h (getHighestBid_cons_ne_none b bs)
    · intro h
      exact absurd h (by simp)

theorem getHighestBid_spec (bids : List Bid) (h : Bid)
    (hh : getHighestBid bids = some h) :
    h ∈ bids ∧ ∀ b ∈ bids, b.amount_cents ≤ h.amount_cents := by
  induction bids generalizing h with
  | nil => simp [getHighestBid] at hh
  | cons b bs ih =>
    simp only [getHighestBid] at hh
    cases hg : getHighestBid bs with
    | none =>
      rw [hg] at hh
      cases hh
      have hbs : bs = [] := (getHighestBid_none_iff bs).mp hg
      subst hbs
      simp
    | some m =>
      rw [hg] at hh
      simp only at hh
      by_cases hcmp : m.amount_cents > b.amount_cents
      · rw [if_pos hcmp] at hh
        cases hh
        obtain ⟨hmem, hmax⟩ := ih h hg
        refine ⟨List.mem_cons_of_mem _ hmem, ?_⟩
        intro b2 hb2
        rcases List.mem_cons.mp hb2 with hb2 | hb2
        · exact hb2 ▸ Nat.le_of_lt hcmp
        · exact hmax b2 hb2
      · rw [if_neg hcmp] at hh
        cases hh
        obtain ⟨hmem, hmax⟩ := ih m hg
        refine ⟨List.mem_cons_self _ _, ?_⟩
        intro b2 hb2
        rcases List.mem_cons.mp hb2 with hb2 | hb2
        · exact hb2 ▸ Nat.le_refl _
        · exact Nat.le_trans (hmax b2 hb2) (Nat.not_lt.mp hcmp)

/-- Helper: whether an `Except` is an error (a rejected promise / thrown
error reaching the route's outer catch). -/
def exceptIsError {ε α : Type} : Except ε α → Bool
  | Except.error _ => true
  | Except.ok _ => false

/-- Helper naming the auction record the finalization update writes. -/
def finalizedAuction (a : Auction) (bids : List Bid) : Auction :=
  { a with status := AuctionStatus.finalized
           winner := (getHighestBid bids).map
             (fun h => Winner.mk h.email h.bidId h.amount_cents) }

/-- Helper naming the link document after the finalization update. -/
def finalizedLink (link : Link) (a : Auction) (bids : List Bid) : Link :=
  { link with auction := some (finalizedAuction a bids), active := some false }

/-- Helper naming the side effects of a finalization transition: the winner
block runs exactly when a highest bid exists. -/
def finalizeExtras (link : Link) (bids : List Bid) (now : Nat)
    (env : FinalizeEnv) : Option Link × Bool × Option String :=
  match getHighestBid bids with
  | none => (none, false, none)
  | some _ => winnerBlock link now env

theorem finalize_transition_eq (link : Link) (bids : List Bid) (now : Nat)
    (env : FinalizeEnv) (a : Auction) (ha : link.auction = some a)
    (hen : a.enabled = true) (hact : a.status = AuctionStatus.active)
    (hend : a.endsAt ≤ now) (hup : env.updateResult = Except.ok ()) :
    finalizeAuction link bids now env = Except.ok (some
      ⟨finalizedLink link a bids, (finalizeExtras link bids now env).1,
        (finalizeExtras link bids now env).2.1,
        (finalizeExtras link bids now env).2.2⟩) := by
  have hne : ¬ (now < a.endsAt) := Nat.not_lt.mpr hend
  simp only [finalizeAuction, ha]
  rw [if_neg (by simp [hen]), if_neg (by simp [hact]), if_neg hne, hup]
  cases hgb : getHighestBid bids with
  | none => simp [finalizeExtras, finalizedLink, finalizedAuction, hgb]
  | some h => simp [finalizeExtras, finalizedLink, finalizedAuction, hgb]

theorem finalize_noop_of_finalized (link : Link) (a : Auction)
    (ha : link.auction = some a) (hen : a.enabled = true)
    (hfin : a.status = AuctionStatus.finalized) (bids : List Bid) (now : Nat)
    (env : FinalizeEnv) :
    finalizeAuction link bids now env = Except.ok (some ⟨link, none, false, none⟩) := by
  simp only [finalizeAuction, ha]
  rw [if_neg (by simp [hen]), if_pos hfin]

/-- Claim C1: after the finalization transition, the stored auction has
status `finalized`, its `winner` is non-null iff at least one bid existed
in the link's bid collection at close time, and a non-null winner carries
the email, bidId and amount_cents of a highest-amount stored bid. -/
theorem claim1_winner_iff_finalized (link : Link) (bids : List Bid) (now : Nat)
    (env : FinalizeEnv) (a : Auction) (ha : link.auction = some a)
    (hen : a.enabled = true) (hact : a.status = AuctionStatus.active)
    (hend : a.endsAt ≤ now) (hup : env.updateResult = Except.ok ()) :
    ∃ o : FinalizeOutcome, finalizeAuction link bids now env = Except.ok (some o) ∧
      ∃ a2 : Auction, o.link.auction = some a2 ∧
        a2.status = AuctionStatus.finalized ∧
        (a2.winner ≠ none ↔ bids ≠ []) ∧
        ∀ w : Winner, a2.winner = some w →
          ∃ b : Bid, b ∈ bids ∧ w.email = b.email ∧ w.bidId = b.bidId ∧
            w.amount_cents = b.amount_cents ∧
            ∀ b2 ∈ bids, b2.amount_cents ≤ b.amount_cents := by
  have hne : ¬ (now < a.endsAt) := Nat.not_lt.mpr hend
  simp only [finalizeAuction, ha]
  rw [if_neg (by simp [hen]), if_neg (by simp [hact]), if_neg hne, hup]
  cases hgb : getHighestBid bids with
  | none =>
    refine ⟨_, rfl, _, rfl, rfl, ?_, ?_⟩
    · have : bids = [] := (getHighestBid_none_iff bids).mp hgb
      simp [this]
    · intro w hw
      simp at hw
  | some h =>
    refine ⟨_, rfl, _, rfl, rfl, ?_, ?_⟩
    · obtain ⟨hmem, _⟩ := getHighestBid_spec bids h hgb
      have : bids ≠ [] := by
        intro hnil
        subst hnil
        simp at hmem
      simp [this]
    · intro w hw
      obtain ⟨hmem, hmax⟩ := getHighestBid_spec bids h hgb
      simp only [Option.map_some', Option.some.injEq] at hw
      subst hw
      exact ⟨h, hmem, rfl, rfl, rfl, hmax⟩

/-- A concrete enabled, active auction closing at time 100. -/
def exAuction : Auction := ⟨true, 100, 1000, 100, AuctionStatus.active, none⟩

/-- A concrete auction link. -/
def exLink : Link := ⟨"L1", "P1", "S1", 0, none, none, false, none, some exAuction⟩

/-- A concrete stored bid of 5000 cents. -/
def exBid : Bid := ⟨"B1", "buyer@example.com", 5000, 50⟩

/-- A concrete product document. -/
def exProduct : Product := ⟨"Gadget", 2000, none⟩

/-- A finalization environment in which every external call succeeds. -/
def exEnv : FinalizeEnv := ⟨Except.ok (), some exProduct, "L2", Except.ok (), Except.ok ()⟩

/-- Concrete instantiation of the C1 theorem at time 100 with one bid. -/
theorem claim1_witness :
    ∃ o : FinalizeOutcome, finalizeAuction exLink [exBid] 100 exEnv = Except.ok (some o) ∧
      ∃ a2 : Auction, o.link.auction = some a2 ∧
        a2.status = AuctionStatus.finalized ∧
        (a2.winner ≠ none ↔ [exBid] ≠ []) ∧
        ∀ w : Winner, a2.winner = some w →
          ∃ b : Bid, b ∈ [exBid] ∧ w.email = b.email ∧ w.bidId = b.bidId ∧
            w.amount_cents = b.amount_cents ∧
            ∀ b2 ∈ [exBid], b2.amount_cents ≤ b.amount_cents :=
  claim1_winner_iff_finalized exLink [exBid] 100 exEnv exAuction rfl rfl rfl
    (by decide) rfl

/-- Claim C2: finalization is idempotent and the status monotone: after a
first successful finalization, a second `finalizeAuction` invocation — with
any later bid list, clock or environment — returns the stored link
unchanged: status stays `finalized`, the winner record is unchanged, and no
follow-up link, email or log entry is produced. -/
theorem claim2_finalize_idempotent (link : Link) (bids : List Bid) (now : Nat)
    (env : FinalizeEnv) (a : Auction) (o : FinalizeOutcome)
    (ha : link.auction = some a) (hen : a.enabled = true)
    (hact : a.status = AuctionStatus.active) (hend : a.endsAt ≤ now)
    (hup : env.updateResult = Except.ok ())
    (h1 : finalizeAuction link bids now env = Except.ok (some o)) :
    ∀ (bids2 : List Bid) (now2 : Nat) (env2 : FinalizeEnv),
      finalizeAuction o.link bids2 now2 env2 =
        Except.ok (some ⟨o.link, none, false, none⟩) ∧
      ∃ a2 : Auction, o.link.auction = some a2 ∧
        a2.status = AuctionStatus.finalized := by
  intro bids2 now2 env2
  rw [finalize_transition_eq link bids now env a ha hen hact hend hup] at h1
  simp only [Except.ok.injEq, Option.some.injEq] at h1
  subst h1
  constructor
  · exact finalize_noop_of_finalized _ (finalizedAuction a bids) rfl hen rfl
      bids2 now2 env2
  · exact ⟨finalizedAuction a bids, rfl, rfl⟩

/-- The outcome of the successful first finalization of `exLink`. -/
def exOutcome : FinalizeOutcome :=
  ⟨finalizedLink exLink exAuction [exBid],
   some (winnerLinkDoc exLink exProduct "L2" 100), true, none⟩

/-- Concrete instantiation of the C2 theorem: re-finalizing the already
finalized `exLink` at time 200 changes nothing. -/
theorem claim2_witness :
    finalizeAuction exOutcome.link [] 200 exEnv =
      Except.ok (some ⟨exOutcome.link, none, false, none⟩) ∧
    ∃ a2 : Auction, exOutcome.link.auction = some a2 ∧
      a2.status = AuctionStatus.finalized :=
  claim2_finalize_idempotent exLink [exBid] 100 exEnv exAuction exOutcome rfl rfl
    rfl (by decide) rfl (by rfl) [] 200 exEnv

/-- Claim C3 (amended): the advertised minimum for the next bid is
`highestBid_cents + minIncrement_cents` when a highest bid exists and the
configured increment is non-zero; a configured `minIncrement_cents` of `0`
is swallowed by the handler's `|| 100` default, so the minimum becomes
`highestBid_cents + 100`; with no highest bid the minimum is
`startingPrice_cents`. -/
theorem claim3_min_required (a : Auction) (h : Bid) :
    (a.minIncrement_cents ≠ 0 →
      minRequired a (some h) = h.amount_cents + a.minIncrement_cents) ∧
    (a.minIncrement_cents = 0 →
      minRequired a (some h) = h.amount_cents + 100) ∧
    minRequired a none = a.startingPrice_cents := by
  refine ⟨?_, ?_, ?_⟩
  · intro hmi
    simp [minRequired, jsOrNat, hmi]
  · intro hmi
    simp [minRequired, jsOrNat, hmi]
  · simp only [minRequired, jsOrNat]
    split
    · omega
    · rfl

/-- Claim C3 counterexample: an auction configured with
`minIncrement_cents = 0` and a highest bid of 1000 yields a computed
minimum of 1100, not 1000 + 0 — the `|| 100` default treats `0` as absent. -/
theorem claim3_counterexample :
    minRequired ⟨true, 100, 1000, 0, AuctionStatus.active, none⟩
        (some ⟨"B1", "b@x.com", 1000, 10⟩) = 1100 ∧
      (1100 : Nat) ≠ 1000 + 0 := by
  constructor
  · rfl
  · decide

/-- Concrete instantiation of the C3 theorem at increment 100. -/
theorem claim3_witness :
    minRequired ⟨true, 100, 1000, 100, AuctionStatus.active, none⟩
        (some ⟨"B1", "b@x.com", 1000, 10⟩) = 1100 ∧
      minRequired ⟨true, 100, 1000, 100, AuctionStatus.active, none⟩ none = 1000 :=
  ⟨(claim3_min_required ⟨true, 100, 1000, 100, AuctionStatus.active, none⟩
      ⟨"B1", "b@x.com", 1000, 10⟩).1 (by decide),
   (claim3_min_required ⟨true, 100, 1000, 100, AuctionStatus.active, none⟩
      ⟨"B1", "b@x.com", 1000, 10⟩).2.2⟩

theorem jsOrNat_zero (v : Nat) : jsOrNat v 0 = v := by
  unfold jsOrNat
  split
  · omega
  · rfl

/-- Claim C4: a bid on an existing, enabled, not-yet-ended auction whose
amount is strictly below the computed minimum is rejected with
`BID_TOO_LOW` carrying the minimum required and the current highest
amount, and nothing changes: the bid collection, the link document and the
side-effect channels are untouched. -/
theorem claim4_bid_too_low (link : Link) (bids : List Bid) (now : Nat)
    (email : String) (amount_cents : Nat) (bidId : String) (env : FinalizeEnv)
    (a : Auction) (hm : email ≠ "") (ha : link.auction = some a)
    (hen : a.enabled = true) (hlive : now < a.endsAt)
    (hlow : amount_cents < minRequired a (getHighestBid bids)) :
    placeBid (some link) bids now email amount_cents bidId env =
      ⟨BidResponse.bidTooLow (minRequired a (getHighestBid bids))
          (match getHighestBid bids with
           | some h => h.amount_cents
           | none => 0),
        bids, some link, none, false⟩ := by
  have hnotended : ¬ (a.endsAt ≤ now) := Nat.not_le.mpr hlive
  simp only [placeBid, ha]
  rw [if_neg hm, if_neg (by simp [hen]), if_neg hnotended, if_pos hlow]
  cases hgb : getHighestBid bids with
  | none => rfl
  | some h => simp [jsOrNat_zero]

/-- Concrete instantiation of the C4 theorem: a 500-cent bid against a
1000-cent starting price is rejected and nothing is persisted. -/
theorem claim4_witness :
    placeBid (some exLink) [] 50 "e@x.com" 500 "B9" exEnv =
      ⟨BidResponse.bidTooLow 1000 0, [], some exLink, none, false⟩ :=
  claim4_bid_too_low exLink [] 50 "e@x.com" 500 "B9" exEnv exAuction
    (by decide) rfl rfl (by decide) (by decide)

/-- Claim C5: any bid placement arriving at or after `endsAt` first runs
finalization (a no-op when a prior call already finalized) and is then
rejected with `AUCTION_ENDED` carrying an auction record whose status is
`finalized`; the bid collection is unchanged, so no bid is persisted. -/
theorem claim5_bid_after_end (link : Link) (bids : List Bid) (now : Nat)
    (email : String) (amount_cents : Nat) (bidId : String) (env : FinalizeEnv)
    (a : Auction) (hm : email ≠ "") (ha : link.auction = some a)
    (hen : a.enabled = true) (hend : a.endsAt ≤ now)
    (hup : env.updateResult = Except.ok ()) :
    ∃ a2 : Auction,
      (placeBid (some link) bids now email amount_cents bidId env).response =
        BidResponse.auctionEnded (some a2) ∧
      a2.status = AuctionStatus.finalized ∧
      (placeBid (some link) bids now email amount_cents bidId env).bids = bids := by
  simp only [placeBid, ha]
  rw [if_neg hm, if_neg (by simp [hen]), if_pos hend]
  cases hst : a.status with
  | finalized =>
    rw [finalize_noop_of_finalized link a ha hen hst bids now env]
    exact ⟨a, by simp [ha], hst, rfl⟩
  | active =>
    rw [finalize_transition_eq link bids now env a ha hen hst hend hup]
    exact ⟨finalizedAuction a bids, rfl, rfl, rfl⟩

/-- Concrete instantiation of the C5 theorem: a bid at time 150 on the
auction that closed at 100 is rejected with the finalized state. -/
theorem claim5_witness :
    ∃ a2 : Auction,
      (placeBid (some exLink) [exBid] 150 "late@x.com" 9000 "B9" exEnv).response =
        BidResponse.auctionEnded (some a2) ∧
      a2.status = AuctionStatus.finalized ∧
      (placeBid (some exLink) [exBid] 150 "late@x.com" 9000 "B9" exEnv).bids =
        [exBid] :=
  claim5_bid_after_end exLink [exBid] 150 "late@x.com" 9000 "B9" exEnv exAuction
    (by decide) rfl rfl (by decide) rfl

/-- Claim C6: when the auction closes with at least one bid and the
product fetch and the store write succeed, finalization creates exactly
one follow-up link (`created` holds at most one document): it
carries the fresh `linkId` (distinct from the auction link's), the same
`productId` and `sellerId`, `expiresAt` = finalization time + 48 hours,
and `digitalDownload` copied from the auction link with the product as
fallback; with zero bids no follow-up link is created. -/
theorem claim6_followup_link (link : Link) (bids : List Bid) (now : Nat)
    (env : FinalizeEnv) (a : Auction) (p : Product)
    (ha : link.auction = some a) (hen : a.enabled = true)
    (hact : a.status = AuctionStatus.active) (hend : a.endsAt ≤ now)
    (hup : env.updateResult = Except.ok ()) (hp : env.product = some p)
    (hset : env.setResult = Except.ok ())
    (hfresh : env.newLinkId ≠ link.linkId) :
    ∃ o : FinalizeOutcome,
      finalizeAuction link bids now env = Except.ok (some o) ∧
      (bids ≠ [] → ∃ doc : Link, o.created = some doc ∧
        doc.linkId = env.newLinkId ∧ doc.linkId ≠ link.linkId ∧
        doc.productId = link.productId ∧ doc.sellerId = link.sellerId ∧
        doc.expiresAt = some (now + 48 * 3600 * 1000) ∧
        doc.digitalDownload = jsOrOpt link.digitalDownload p.digitalDownload) ∧
      (bids = [] → o.created = none) := by
  rw [finalize_transition_eq link bids now env a ha hen hact hend hup]
  refine ⟨_, rfl, ?_, ?_⟩
  · intro hne
    obtain ⟨b, bs, rfl⟩ : ∃ b bs, bids = b :: bs := by
      cases bids with
      | nil => exact absurd rfl hne
      | cons b bs => exact ⟨b, bs, rfl⟩
    have hg : getHighestBid (b :: bs) ≠ none := getHighestBid_cons_ne_none b bs
    cases hgb : getHighestBid (b :: bs) with
    | none => exact absurd hgb hg
    | some h =>
      refine ⟨winnerLinkDoc link p env.newLinkId now, ?_, rfl, hfresh, rfl, rfl, rfl, rfl⟩
      simp only [finalizeExtras, hgb, winnerBlock, hp, hset]
      cases env.emailResult <;> rfl
  · intro hnil
    subst hnil
    simp [finalizeExtras, getHighestBid]

/-- Concrete instantiation of the C6 theorem with one bid. -/
theorem claim6_witness :
    ∃ o : FinalizeOutcome,
      finalizeAuction exLink [exBid] 100 exEnv = Except.ok (some o) ∧
      ([exBid] ≠ [] → ∃ doc : Link, o.created = some doc ∧
        doc.linkId = "L2" ∧ doc.linkId ≠ exLink.linkId ∧
        doc.productId = exLink.productId ∧ doc.sellerId = exLink.sellerId ∧
        doc.expiresAt = some (100 + 48 * 3600 * 1000) ∧
        doc.digitalDownload = jsOrOpt exLink.digitalDownload exProduct.digitalDownload) ∧
      ([exBid] = [] → o.created = none) :=
  claim6_followup_link exLink [exBid] 100 exEnv exAuction exProduct rfl rfl rfl
    (by decide) rfl rfl rfl (by decide)

/-- A finalization environment whose follow-up-link `set` rejects. -/
def exEnvSetFail : FinalizeEnv :=
  ⟨Except.ok (), some exProduct, "L2", Except.error "db down", Except.ok ()⟩

/-- Claim C7 counterexample: a persistence failure while creating the
follow-up link is NOT propagated to the caller — the winner block's
`catch` swallows it: `finalizeAuction` still returns `ok`, with the
failure merely logged, no follow-up link created, and the finalized
status/winner committed. -/
theorem claim7_counterexample :
    finalizeAuction exLink [exBid] 100 exEnvSetFail =
      Except.ok (some ⟨finalizedLink exLink exAuction [exBid], none, false,
        some "db down"⟩) ∧
    exceptIsError (finalizeAuction exLink [exBid] 100 exEnvSetFail) = false := by
  constructor
  · rfl
  · rfl

/-- Claim C7 (amended): once the finalization status update has committed,
nothing in the winner block propagates: `finalizeAuction` returns `ok`
with `status = finalized` and the winner committed for every outcome of
the product fetch, the follow-up-link `set` and the email send.  A `set`
failure leaves no follow-up link and is only logged; an email failure
after a successful `set` leaves the created follow-up link and is only
logged. -/
theorem claim7_failures_swallowed (link : Link) (bids : List Bid) (now : Nat)
    (env : FinalizeEnv) (a : Auction)
    (ha : link.auction = some a) (hen : a.enabled = true)
    (hact : a.status = AuctionStatus.active) (hend : a.endsAt ≤ now)
    (hup : env.updateResult = Except.ok ()) :
    ∃ o : FinalizeOutcome,
      finalizeAuction link bids now env = Except.ok (some o) ∧
      o.link = finalizedLink link a bids ∧
      (∀ p e, bids ≠ [] → env.product = some p →
        env.setResult = Except.error e →
        o.created = none ∧ o.logged = some e) ∧
      (∀ p e, bids ≠ [] → env.product = some p →
        env.setResult = Except.ok () → env.emailResult = Except.error e →
        o.created = some (winnerLinkDoc link p env.newLinkId now) ∧
        o.logged = some e) := by
  rw [finalize_transition_eq link bids now env a ha hen hact hend hup]
  refine ⟨_, rfl, rfl, ?_, ?_⟩
  · intro p e hne hp hset
    obtain ⟨b, bs, rfl⟩ : ∃ b bs, bids = b :: bs := by
      cases bids with
      | nil => exact absurd rfl hne
      | cons b bs => exact ⟨b, bs, rfl⟩
    cases hgb : getHighestBid (b :: bs) with
    | none => exact absurd hgb (getHighestBid_cons_ne_none b bs)
    | some h =>
      constructor <;> simp [finalizeExtras, hgb, winnerBlock, hp, hset]
  · intro p e hne hp hset hmail
    obtain ⟨b, bs, rfl⟩ : ∃ b bs, bids = b :: bs := by
      cases bids with
      | nil => exact absurd rfl hne
      | cons b bs => exact ⟨b, bs, rfl⟩
    cases hgb : getHighestBid (b :: bs) with
    | none => exact absurd hgb (getHighestBid_cons_ne_none b bs)
    | some h =>
      constructor <;> simp [finalizeExtras, hgb, winnerBlock, hp, hset, hmail]

/-- Concrete instantiation of the C7 amended theorem with a failing email
send: the auction still finalizes, the follow-up link exists, the error is
only logged. -/
theorem claim7_witness :
    ∃ o : FinalizeOutcome,
      finalizeAuction exLink [exBid] 100
          ⟨Except.ok (), some exProduct, "L2", Except.ok (),
            Except.error "smtp down"⟩ = Except.ok (some o) ∧
      o.link = finalizedLink exLink exAuction [exBid] ∧
      (∀ p e, [exBid] ≠ [] →
        (⟨Except.ok (), some exProduct, "L2", Except.ok (),
            Except.error "smtp down"⟩ : FinalizeEnv).product = some p →
        (⟨Except.ok (), some exProduct, "L2", Except.ok (),
            Except.error "smtp down"⟩ : FinalizeEnv).setResult = Except.error e →
        o.created = none ∧ o.logged = some e) ∧
      (∀ p e, [exBid] ≠ [] →
        (⟨Except.ok (), some exProduct, "L2", Except.ok (),
            Except.error "smtp down"⟩ : FinalizeEnv).product = some p →
        (⟨Except.ok (), some exProduct, "L2", Except.ok (),
            Except.error "smtp down"⟩ : FinalizeEnv).setResult = Except.ok () →
        (⟨Except.ok (), some exProduct, "L2", Except.ok (),
            Except.error "smtp down"⟩ : FinalizeEnv).emailResult = Except.error e →
        o.created = some (winnerLinkDoc exLink p "L2" 100) ∧
        o.logged = some e) :=
  claim7_failures_swallowed exLink [exBid] 100
    ⟨Except.ok (), some exProduct, "L2", Except.ok (), Except.error "smtp down"⟩
    exAuction rfl rfl rfl (by decide) rfl

/-- Claim C8: for a link with an enabled auction, checkout-session creation
returns an error while the auction status is not `finalized`; for a
finalized auction with no stored bid it returns an error; and whenever it
does return a session, the unit amount is the highest stored bid's amount
— never the product's nominal `price_cents`. -/
theorem claim8_checkout (link : Link) (product : Product) (bids : List Bid)
    (now : Nat) (a : Auction) (ha : link.auction = some a)
    (hen : a.enabled = true) :
    (a.status ≠ AuctionStatus.finalized →
      exceptIsError (createCheckoutSession (some link) (some product) bids now)
        = true) ∧
    (a.status = AuctionStatus.finalized → bids = [] →
      exceptIsError (createCheckoutSession (some link) (some product) bids now)
        = true) ∧
    (∀ s : CheckoutSession,
      createCheckoutSession (some link) (some product) bids now = Except.ok s →
      ∃ h : Bid, getHighestBid bids = some h ∧
        s.unit_amount = h.amount_cents) := by
  have hbody :
      (∀ s : CheckoutSession,
        createCheckoutSessionBody link (some product) bids = Except.ok s →
        ∃ h : Bid, getHighestBid bids = some h ∧ s.unit_amount = h.amount_cents) ∧
      (a.status ≠ AuctionStatus.finalized →
        exceptIsError (createCheckoutSessionBody link (some product) bids) = true) ∧
      (a.status = AuctionStatus.finalized → bids = [] →
        exceptIsError (createCheckoutSessionBody link (some product) bids) = true) := by
    simp only [createCheckoutSessionBody, ha]
    cases hst : a.status with
    | active =>
      rw [if_pos (by simp [hen, hst])]
      refine ⟨?_, ?_, ?_⟩
      · intro s hs
        exact absurd hs (by simp)
      · intro _
        rfl
      · intro hcontra
        exact absurd hcontra (by simp [hst])
    | finalized =>
      rw [if_neg (by simp [hen, hst]), if_pos (by simp [hen, hst])]
      cases hgb : getHighestBid bids with
      | none =>
        refine ⟨?_, ?_, ?_⟩
        · intro s hs
          exact absurd hs (by simp)
        · intro hcontra
          exact absurd rfl hcontra
        · intro _ _
          rfl
      | some top =>
        simp only
        by_cases htop : top.amount_cents = 0
        · rw [if_pos htop]
          refine ⟨?_, ?_, ?_⟩
          · intro s hs
            exact absurd hs (by simp)
          · intro hcontra
            exact absurd rfl hcontra
          · intro _ hnil
            subst hnil
            simp [getHighestBid] at hgb
        · rw [if_neg htop]
          refine ⟨?_, ?_, ?_⟩
          · intro s hs
            simp only [Except.ok.injEq] at hs
            subst hs
            exact ⟨top, rfl, rfl⟩
          · intro hcontra
            exact absurd rfl hcontra
          · intro _ hnil
            subst hnil
            simp [getHighestBid] at hgb
  simp only [createCheckoutSession]
  cases hexp : link.expiresAt with
  | none => exact ⟨hbody.2.1, hbody.2.2, hbody.1⟩
  | some t =>
    simp only
    by_cases ht : t ≤ now
    · rw [if_pos ht]
      refine ⟨fun _ => rfl, fun _ _ => rfl, ?_⟩
      intro s hs
      exact absurd hs (by simp)
    · rw [if_neg ht]
      exact ⟨hbody.2.1, hbody.2.2, hbody.1⟩

/-- `exLink` after its auction has been finalized. -/
def exLinkFinal : Link :=
  { exLink with auction := some { exAuction with status := AuctionStatus.finalized } }

/-- Concrete instantiation of the C8 theorem: checkout on the active
auction errors; on the finalized auction the session amount is the highest
bid (5000), not the product price (2000). -/
theorem claim8_witness :
    exceptIsError (createCheckoutSession (some exLink) (some exProduct) [exBid] 50)
        = true ∧
      ∃ h : Bid, getHighestBid [exBid] = some h ∧
        (⟨5000⟩ : CheckoutSession).unit_amount = h.amount_cents :=
  ⟨(claim8_checkout exLink exProduct [exBid] 50 exAuction rfl rfl).1 (by decide),
   (claim8_checkout exLinkFinal exProduct [exBid] 50
      { exAuction with status := AuctionStatus.finalized } rfl rfl).2.2
      ⟨5000⟩ (by rfl)⟩

theorem get_at_sep (loc dom : List Char) :
    (loc ++ '@' :: dom).get? loc.length = some '@' := by
  rw [List.get?_append_right (Nat.le_refl _)]
  simp

theorem email_at_unique (loc dom : List Char) (hloc : '@' ∉ loc)
    (hdom : '@' ∉ dom) :
    ∀ j, j ≠ loc.length → (loc ++ '@' :: dom).get? j ≠ some '@' := by
  intro j hj hcontra
  rcases Nat.lt_trichotomy j loc.length with hlt | heq | hgt
  · rw [List.get?_append hlt] at hcontra
    exact hloc (List.get?_mem hcontra)
  · exact hj heq
  · rw [List.get?_append_right (Nat.le_of_lt hgt)] at hcontra
    have h1 : j - loc.length = (j - loc.length - 1) + 1 := by omega
    rw [h1, List.get?_cons_succ] at hcontra
    exact hdom (List.get?_mem hcontra)

theorem lastAtAux_eq_some (l : List Char) (L : Nat)
    (hL : l.get? L = some '@')
    (hOnly : ∀ j, j ≠ L → l.get? j ≠ some '@')
    (h3 : 3 ≤ L) (h2 : L + 2 ≤ l.length) :
    ∀ n, L < n → lastAtAux l n = some L := by
  intro n
  induction n with
  | zero => intro hc; exact absurd hc (Nat.not_lt_zero L)
  | succ j ih =>
    intro hj
    by_cases hjL : j = L
    · subst hjL
      simp only [lastAtAux]
      rw [if_pos ⟨h3, h2, hL⟩]
    · simp only [lastAtAux]
      rw [if_neg (fun hc => hOnly j hjL hc.2.2)]
      exact ih (by omega)

theorem lastAtAux_eq_none (l : List Char)
    (h : ∀ j, ¬ (3 ≤ j ∧ j + 2 ≤ l.length ∧ l.get? j = some '@')) :
    ∀ n, lastAtAux l n = none := by
  intro n
  induction n with
  | zero => rfl
  | succ j ih =>
    simp only [lastAtAux]
    rw [if_neg (h j)]
    exact ih

/-- Claim C9 (amended): the summary's `highest_email_masked` applies the
replace-regex mask to the highest bidder's email; for a well-formed email
`local@domain` this reveals the first two characters of the local part
followed by `****` and the full domain only when the local part has at
least three characters — when the local part has two or fewer characters
the regex does not match and the email is returned verbatim, unmasked. -/
theorem claim9_mask_email (loc dom : List Char) (hloc : '@' ∉ loc)
    (hdom : '@' ∉ dom) (hne : dom ≠ [])
    (link : Link) (bids : List Bid) (h : Bid)
    (hh : getHighestBid bids = some h)
    (hemail : h.email = String.mk (loc ++ '@' :: dom)) :
    (summaryResponse link bids).highest_email_masked = some (maskEmail h.email) ∧
    (3 ≤ loc.length → maskEmail h.email =
      String.mk (loc.take 2 ++ '*' :: '*' :: '*' :: '*' :: '@' :: dom)) ∧
    (loc.length ≤ 2 → maskEmail h.email = h.email) := by
  have hdomlen : 1 ≤ dom.length := by
    cases dom with
    | nil => exact absurd rfl hne
    | cons c cs => simp
  refine ⟨?_, ?_, ?_⟩
  · simp [summaryResponse, hh]
  · intro h3
    rw [hemail]
    unfold maskEmail
    have hL : (loc ++ '@' :: dom).get? loc.length = some '@' := get_at_sep loc dom
    have hOnly := email_at_unique loc dom hloc hdom
    have h2 : loc.length + 2 ≤ (loc ++ '@' :: dom).length := by
      simp [List.length_append]
      omega
    have hlt : loc.length < (loc ++ '@' :: dom).length := by
      simp [List.length_append]
    rw [show (String.mk (loc ++ '@' :: dom)).data = loc ++ '@' :: dom from rfl]
    rw [lastAtAux_eq_some _ _ hL hOnly h3 h2 _ hlt]
    simp only
    congr 1
    rw [List.drop_left, List.take_append_of_le_length (by omega)]
  · intro hle
    rw [hemail]
    unfold maskEmail
    rw [show (String.mk (loc ++ '@' :: dom)).data = loc ++ '@' :: dom from rfl]
    have hnone : ∀ j, ¬ (3 ≤ j ∧ j + 2 ≤ (loc ++ '@' :: dom).length ∧
        (loc ++ '@' :: dom).get? j = some '@') := by
      intro j hc
      by_cases hjL : j = loc.length
      · subst hjL
        omega
      · exact email_at_unique loc dom hloc hdom j hjL hc.2.2
    rw [lastAtAux_eq_none _ hnone _]

/-- Claim C9 counterexample: for the well-formed bidder email `ab@x.com`
(local part shorter than three characters) the summary returns the email
completely unmasked — not the `ab****@x.com` form the claim's masking rule
prescribes. -/
theorem claim9_counterexample :
    (summaryResponse exLink [⟨"B1", "ab@x.com", 5000, 50⟩]).highest_email_masked =
      some "ab@x.com" ∧
    some "ab@x.com" ≠ some "ab****@x.com" := by
  constructor
  · rfl
  · decide

/-- Concrete instantiation of the C9 amended theorem on
`buyer@example.com`, which masks to `bu****@example.com`. -/
theorem claim9_witness :
    (summaryResponse exLink [exBid]).highest_email_masked =
      some (maskEmail exBid.email) ∧
    maskEmail exBid.email =
      String.mk ("buyer".data.take 2 ++
        '*' :: '*' :: '*' :: '*' :: '@' :: "example.com".data) :=
  have hc := claim9_mask_email "buyer".data "example.com".data (by decide)
    (by decide) (by decide) exLink [exBid] exBid rfl (by decide)
  ⟨hc.1, hc.2.1 (by decide)⟩

/-- Claim C10: an accepted bid is persisted with the submitted email
lowercased (`String(email).toLowerCase()`), and consequently a winner
computed by a finalization transition from bids whose emails are
lowercase carries a lowercase email. -/
theorem claim10_email_lowercased (link : Link) (bids : List Bid) (now : Nat)
    (email : String) (amount_cents : Nat) (bidId : String) (env : FinalizeEnv)
    (a : Auction) :
    (∀ b : Bid,
      (placeBid (some link) bids now email amount_cents bidId env).response =
        BidResponse.ok b →
      b.email = jsToLowerCase email ∧
      (placeBid (some link) bids now email amount_cents bidId env).bids =
        bids ++ [b]) ∧
    (link.auction = some a → a.enabled = true →
      a.status = AuctionStatus.active → a.endsAt ≤ now →
      env.updateResult = Except.ok () →
      (∀ b2 ∈ bids, ∃ s : String, b2.email = jsToLowerCase s) →
      ∀ (o : FinalizeOutcome) (a2 : Auction) (w : Winner),
        finalizeAuction link bids now env = Except.ok (some o) →
        o.link.auction = some a2 → a2.winner = some w →
        ∃ s : String, w.email = jsToLowerCase s) := by
  constructor
  · intro b hok
    by_cases hm : email = ""
    · simp [placeBid, hm] at hok
    · cases hla : link.auction with
      | none => simp [placeBid, hm, hla] at hok
      | some a1 =>
        by_cases hen : a1.enabled = false
        · simp [placeBid, hm, hla, hen] at hok
        · by_cases hend : a1.endsAt ≤ now
          · cases hf : finalizeAuction link bids now env with
            | error e => simp [placeBid, hm, hla, hen, hend, hf] at hok
            | ok oo =>
              cases oo with
              | none => simp [placeBid, hm, hla, hen, hend, hf] at hok
              | some o => simp [placeBid, hm, hla, hen, hend, hf] at hok
          · by_cases hlow :
                amount_cents < minRequired a1 (getHighestBid bids)
            · simp [placeBid, hm, hla, hen, hend, hlow] at hok
            · simp only [placeBid, if_neg hm, hla, if_neg hen, if_neg hend,
                if_neg hlow, BidResponse.ok.injEq] at hok
              subst hok
              constructor
              · rfl
              · simp only [placeBid, if_neg hm, hla, if_neg hen, if_neg hend,
                  if_neg hlow]
  · intro ha hen hact hend hup hlower o a2 w hf hoa hw
    rw [finalize_transition_eq link bids now env a ha hen hact hend hup] at hf
    simp only [Except.ok.injEq, Option.some.injEq] at hf
    subst hf
    simp only [finalizedLink, Option.some.injEq] at hoa
    subst hoa
    simp only [finalizedAuction] at hw
    cases hgb : getHighestBid bids with
    | none =>
      rw [hgb] at hw
      simp at hw
    | some hb =>
      rw [hgb] at hw
      simp only [Option.map_some', Option.some.injEq] at hw
      subst hw
      obtain ⟨hmem, _⟩ := getHighestBid_spec bids hb hgb
      obtain ⟨s, hs⟩ := hlower hb hmem
      exact ⟨s, hs⟩

/-- Concrete instantiation of the C10 theorem: a mixed-case submission is
stored lowercased, and the winner derived from lowercase bids has a
lowercase email. -/
theorem claim10_witness :
    ((⟨"B7", "buyer@example.com", 1000, 50⟩ : Bid).email =
        jsToLowerCase "Buyer@Example.Com" ∧
      (placeBid (some exLink) [] 50 "Buyer@Example.Com" 1000 "B7" exEnv).bids =
        [] ++ [⟨"B7", "buyer@example.com", 1000, 50⟩]) ∧
    ∃ s : String,
      (Winner.mk "buyer@example.com" "B1" 5000).email = jsToLowerCase s :=
  ⟨(claim10_email_lowercased exLink [] 50 "Buyer@Example.Com" 1000 "B7" exEnv
      exAuction).1 ⟨"B7", "buyer@example.com", 1000, 50⟩ (by decide),
   (claim10_email_lowercased exLink [exBid] 100 "x@x.com" 0 "B0" exEnv
      exAuction).2 rfl rfl rfl (by decide) rfl
      (fun b2 hb2 => ⟨"buyer@example.com", by
        simp only [List.mem_singleton] at hb2
        subst hb2
        decide⟩)
      exOutcome (finalizedAuction exAuction [exBid])
      ⟨"buyer@example.com", "B1", 5000⟩ (by rfl) rfl rfl⟩

end InstaPay
